import Mathlib

/-!
Verification development for the idle-EC2-instance detection pipeline of the
daemo-aws-agent repository (src/awsEc2Idle.ts and the ranking step of
src/AWSFunctions.ts).  The TypeScript source is shallowly embedded: JS numbers
are modelled as rationals (every modelled value is finite), fallible lookups as
`Option`, the CloudWatch / EC2 upstreams as explicit response streams passed in
as data, and the mutable per-instance aggregation record as a total function
from instance ids to aggregation records (a missing key reads as the empty
record, exactly as `aggregationByInstance[id] ?? {}` does).
-/

namespace Daemo

/-! ## Data model (src/awsEc2Idle.ts, lines 23-48) -/

/-- Embedding of the `ec2InstanceSummary` type: identity and descriptive
metadata of one instance.  The tag mapping is an association list in insertion
order, mirroring a JS record. -/
structure ec2InstanceSummary where
  instanceId : String
  name : Option String := none
  instanceType : Option String := none
  state : Option String := none
  launchTime : Option String := none
  availabilityZone : Option String := none
  tags : Option (List (String × String)) := none
deriving DecidableEq

/-- Embedding of the `idleMetrics` type: per-instance aggregate statistics,
every field optional. -/
structure idleMetrics where
  cpuAvg : Option ℚ := none
  netInBytesTotal : Option ℚ := none
  netOutBytesTotal : Option ℚ := none
  dataPointsCpu : Option Nat := none
  dataPointsNetIn : Option Nat := none
  dataPointsNetOut : Option Nat := none
deriving DecidableEq

/-- Confidence tier of an idle candidate (`"HIGH" | "MEDIUM" | "LOW"`). -/
inductive Confidence where
  | HIGH
  | MEDIUM
  | LOW
deriving DecidableEq

/-- Embedding of the `idleCandidate` type.  The TS value is the spread
`{...inst, ...metrics, idle, confidence, reason}`; the two spread parts have
disjoint fields, so they are kept as nested records here. -/
structure idleCandidate where
  summary : ec2InstanceSummary
  metrics : idleMetrics
  idle : Bool
  confidence : Confidence
  reason : List String
deriving DecidableEq

/-! ## Classifier helpers (src/awsEc2Idle.ts, lines 295-356) -/

/-- Tag record of an instance, `inst.tags ?? {}`. -/
def tagsRecordOf (inst : ec2InstanceSummary) : List (String × String) :=
  inst.tags.getD []

/-- Source condition `excludeTagKeys.some((tagKey) => tagKey in tags)`. -/
def isExcludedByTag (inst : ec2InstanceSummary) (excludeTagKeys : List String) : Bool :=
  excludeTagKeys.any fun tagKey => (tagsRecordOf inst).any fun p => p.1 == tagKey

/-- Source expression `metrics.dataPointsCpu ?? 0`. -/
def cpuPoints (m : idleMetrics) : Nat := m.dataPointsCpu.getD 0

/-- Source expression `metrics.dataPointsNetIn ?? 0`. -/
def netInPoints (m : idleMetrics) : Nat := m.dataPointsNetIn.getD 0

/-- Source expression `metrics.dataPointsNetOut ?? 0`. -/
def netOutPoints (m : idleMetrics) : Nat := m.dataPointsNetOut.getD 0

/-- Source condition `hasEnoughMetricCoverage`: all three datapoint counts
reach `minDataPoints`. -/
def hasEnoughMetricCoverage (m : idleMetrics) (minDataPoints : Nat) : Bool :=
  decide (minDataPoints ≤ cpuPoints m) &&
  decide (minDataPoints ≤ netInPoints m) &&
  decide (minDataPoints ≤ netOutPoints m)

/-- Source condition `cpuLooksIdle`: `typeof metrics.cpuAvg === "number" &&
metrics.cpuAvg <= cpuThresholdPct`. -/
def cpuLooksIdle (m : idleMetrics) (cpuThresholdPct : ℚ) : Bool :=
  match m.cpuAvg with
  | some v => decide (v ≤ cpuThresholdPct)
  | none => false

/-- Source expression `(metrics.netInBytesTotal ?? 0) + (metrics.netOutBytesTotal ?? 0)`. -/
def netTotalBytes (m : idleMetrics) : ℚ :=
  m.netInBytesTotal.getD 0 + m.netOutBytesTotal.getD 0

/-- Source condition `networkLooksIdle`.  The source also conjoins
`Number.isFinite(netTotalBytes)`, which is identically true in this model
since every modelled numeric value is a (finite) rational. -/
def networkLooksIdle (m : idleMetrics) (netTotalThresholdBytes : ℚ) : Bool :=
  decide (netTotalBytes m ≤ netTotalThresholdBytes)

/-- JS `Math.round`: round half toward positive infinity. -/
def jsRound (q : ℚ) : Int := ⌊q + 1 / 2⌋

/-- Rendering of `Number.prototype.toFixed(2)`, modelled as rounding the
hundredths digit half away from zero and printing two decimals. -/
def toFixed2 (q : ℚ) : String :=
  let scaled : Int := if 0 ≤ q then ⌊100 * q + 1 / 2⌋ else -⌊100 * (-q) + 1 / 2⌋
  let mag := scaled.natAbs
  (if scaled < 0 then "-" else "") ++ toString (mag / 100) ++ "." ++
    (if mag % 100 < 10 then "0" else "") ++ toString (mag % 100)

/-- Reason line pushed when the instance carries an excluded tag key. -/
def exclusionReason (excludeTagKeys : List String) : String :=
  "Excluded (has one of these tag keys): " ++ String.intercalate ", " excludeTagKeys

/-- Reason line pushed when metric coverage is insufficient. -/
def coverageReason (m : idleMetrics) (minDataPoints : Nat) : String :=
  "Low metric coverage (cpu=" ++ toString (cpuPoints m) ++ ", netIn=" ++
    toString (netInPoints m) ++ ", netOut=" ++ toString (netOutPoints m) ++
    "; min=" ++ toString minDataPoints ++ ")."

/-- Always-present utilization summary line. -/
def cpuReason (m : idleMetrics) (cpuThresholdPct : ℚ) : String :=
  "CPU avg: " ++ (match m.cpuAvg with | some v => toFixed2 v | none => "N/A") ++
    "% (threshold " ++ toString cpuThresholdPct ++ "%)"

/-- Always-present network-total summary line. -/
def netReason (m : idleMetrics) (netTotalThresholdBytes : ℚ) : String :=
  "Network total: " ++ toString (jsRound (netTotalBytes m)) ++ " bytes (threshold " ++
    toString netTotalThresholdBytes ++ " bytes)"

/-- Embedding of `classifyIdle` (src/awsEc2Idle.ts lines 295-356): pure
classification of one instance given its aggregate metrics and the policy
parameters. -/
def classifyIdle (inst : ec2InstanceSummary) (metrics : idleMetrics)
    (cpuThresholdPct netTotalThresholdBytes : ℚ) (minDataPoints : Nat)
    (excludeTagKeys : List String) : idleCandidate :=
  let excluded := isExcludedByTag inst excludeTagKeys
  let coverage := hasEnoughMetricCoverage metrics minDataPoints
  let cpuOk := cpuLooksIdle metrics cpuThresholdPct
  let netOk := networkLooksIdle metrics netTotalThresholdBytes
  { summary := inst
    metrics := metrics
    idle := !excluded && coverage && cpuOk && netOk
    confidence :=
      if excluded then .LOW
      else if coverage && cpuOk && netOk then .HIGH
      else if coverage then .MEDIUM
      else .LOW
    reason :=
      (if excluded then [exclusionReason excludeTagKeys] else []) ++
      (if coverage then [] else [coverageReason metrics minDataPoints]) ++
      [cpuReason metrics cpuThresholdPct, netReason metrics netTotalThresholdBytes] }

/-! ## Specification-side predicates, written from the claims' wording -/

/-- Claim-side predicate: some key of `excludeTagKeys` occurs in the
instance's tag mapping. -/
def TagExcluded (inst : ec2InstanceSummary) (excludeTagKeys : List String) : Prop :=
  ∃ k ∈ excludeTagKeys, ∃ p ∈ tagsRecordOf inst, p.1 = k

instance (inst : ec2InstanceSummary) (keys : List String) :
    Decidable (TagExcluded inst keys) := by
  unfold TagExcluded; infer_instance

/-- Claim-side predicate: each of the three datapoint counts (defaulting to 0
when absent) is at least `minDataPoints`. -/
def SufficientCoverage (m : idleMetrics) (minDataPoints : Nat) : Prop :=
  minDataPoints ≤ m.dataPointsCpu.getD 0 ∧
  minDataPoints ≤ m.dataPointsNetIn.getD 0 ∧
  minDataPoints ≤ m.dataPointsNetOut.getD 0

instance (m : idleMetrics) (minDataPoints : Nat) :
    Decidable (SufficientCoverage m minDataPoints) := by
  unfold SufficientCoverage; infer_instance

/-- Claim-side predicate: the utilization average is defined and at or below
the threshold. -/
def CpuOk (m : idleMetrics) (cpuThresholdPct : ℚ) : Prop :=
  ∃ v, m.cpuAvg = some v ∧ v ≤ cpuThresholdPct

/-- Claim-side predicate: combined ingress and egress total (absent fields
read as 0) is at or below the threshold. -/
def NetOk (m : idleMetrics) (netTotalThresholdBytes : ℚ) : Prop :=
  m.netInBytesTotal.getD 0 + m.netOutBytesTotal.getD 0 ≤ netTotalThresholdBytes

/-! ## Metric aggregator: query construction and chunking
(src/awsEc2Idle.ts, lines 134-219) -/

/-- ASCII lowercase of one character (the behaviour of `toLowerCase` on the
identifiers built here, which are ASCII). -/
def lowerChar (c : Char) : Char :=
  if 'A' ≤ c ∧ c ≤ 'Z' then Char.ofNat (c.toNat + 32) else c

/-- ASCII lowercase of a string, modelling `String.prototype.toLowerCase` on
the ASCII identifiers used by the source. -/
def toLowerAscii (s : String) : String := ⟨s.data.map lowerChar⟩

/-- Embedding of `safeId`: `` `${prefix}${idx}`.toLowerCase() ``. -/
def safeId (pfx : String) (idx : Nat) : String := toLowerAscii (pfx ++ toString idx)

/-- One metric kind of the three queries issued per instance. -/
inductive MetricKind where
  | cpu
  | ni
  | no
deriving DecidableEq

/-- Embedding of the `MetricStat` part of a query descriptor (namespace,
metric name, the `InstanceId` dimension value, period and statistic). -/
structure MetricStatSpec where
  Namespace : String
  MetricName : String
  InstanceIdDimension : String
  Period : Nat
  Stat : String
deriving DecidableEq

/-- Embedding of a CloudWatch `MetricDataQuery` descriptor. -/
structure MetricDataQuery where
  Id : String
  ReturnData : Bool
  MetricStat : MetricStatSpec
deriving DecidableEq

/-- CPU-utilization query for the instance at position `index`. -/
def cpuQuery (periodSeconds index : Nat) (instanceId : String) : MetricDataQuery :=
  ⟨safeId "cpu" index, true, ⟨"AWS/EC2", "CPUUtilization", instanceId, periodSeconds, "Average"⟩⟩

/-- NetworkIn query for the instance at position `index`. -/
def niQuery (periodSeconds index : Nat) (instanceId : String) : MetricDataQuery :=
  ⟨safeId "ni" index, true, ⟨"AWS/EC2", "NetworkIn", instanceId, periodSeconds, "Sum"⟩⟩

/-- NetworkOut query for the instance at position `index`. -/
def noQuery (periodSeconds index : Nat) (instanceId : String) : MetricDataQuery :=
  ⟨safeId "no" index, true, ⟨"AWS/EC2", "NetworkOut", instanceId, periodSeconds, "Sum"⟩⟩

/-- The `instanceIds.forEach` loop building `metricQueries`: three descriptors
per instance, pushed in order cpu, ni, no, with the positional index encoded
in the identifier. -/
def buildMetricQueriesFrom (periodSeconds index : Nat) :
    List String → List MetricDataQuery
  | [] => []
  | instanceId :: rest =>
    cpuQuery periodSeconds index instanceId ::
    niQuery periodSeconds index instanceId ::
    noQuery periodSeconds index instanceId ::
    buildMetricQueriesFrom periodSeconds (index + 1) rest

/-- Full query list for an instance-id sequence. -/
def buildMetricQueries (instanceIds : List String) (periodSeconds : Nat) :
    List MetricDataQuery :=
  buildMetricQueriesFrom periodSeconds 0 instanceIds

/-- Source constant `maxQueriesPerCall = 450`. -/
def maxQueriesPerCall : Nat := 450

/-- The chunking loop `for (let i = 0; i < metricQueries.length; i += 450)
queryChunks.push(metricQueries.slice(i, i + 450))`. -/
def chunkList {α : Type} : List α → List (List α)
  | [] => []
  | x :: xs =>
    ((x :: xs).take maxQueriesPerCall) :: chunkList ((x :: xs).drop maxQueriesPerCall)
termination_by l => l.length
decreasing_by simp [maxQueriesPerCall]; omega

/-! ## Metric aggregator: result demultiplexing and reduction
(src/awsEc2Idle.ts, lines 221-293) -/

/-- One raw entry of a returned `Values` array.  `value q` is a finite JS
number; `nonFinite` stands for `NaN` or `±Infinity` (which pass the `typeof`
test but fail `Number.isFinite`); `nonNumber` stands for a missing or
non-numeric entry. -/
inductive RawDatapoint where
  | value (q : ℚ)
  | nonFinite
  | nonNumber
deriving DecidableEq

/-- Embedding of a `MetricDataResult` as delivered by the upstream. -/
structure MetricDataResult where
  Id : Option String
  Values : List RawDatapoint
deriving DecidableEq

/-- The filter `(result.Values ?? []).filter(v => typeof v === "number" &&
Number.isFinite(v))`. -/
def finiteValues (vs : List RawDatapoint) : List ℚ :=
  vs.filterMap fun v => match v with | .value q => some q | _ => none

/-- Embedding of the `average` helper: `undefined` on an empty list, else the
arithmetic mean. -/
def average (values : List ℚ) : Option ℚ :=
  if values.length = 0 then none else some (values.sum / (values.length : ℚ))

/-- Embedding of the `sum` helper: `undefined` on an empty list, else the sum. -/
def sum (values : List ℚ) : Option ℚ :=
  if values.length = 0 then none else some values.sum

/-- Embedding of the `metricAggregation` record; a fresh record has every
field `undefined`. -/
structure metricAggregation where
  cpuAvg : Option ℚ := none
  cpuCount : Option Nat := none
  netInTotal : Option ℚ := none
  netInCount : Option Nat := none
  netOutTotal : Option ℚ := none
  netOutCount : Option Nat := none
deriving DecidableEq

/-- The mutable `aggregationByInstance` record, modelled as a total map; a key
never written reads as the empty record, matching `?? {}`. -/
abbrev AggMap := String → metricAggregation

/-- Decode one digit character. -/
def digitToNat (c : Char) : Option Nat :=
  if '0' ≤ c ∧ c ≤ '9' then some (c.toNat - 48) else none

/-- Decode a run of decimal digits (most significant first) on top of `acc`. -/
def digitsToNatAux (acc : Nat) : List Char → Option Nat
  | [] => some acc
  | c :: cs =>
    match digitToNat c with
    | none => none
    | some d => digitsToNatAux (acc * 10 + d) cs

/-- Decode a non-empty all-digit character list (the `(\d+)$` group of the
source regex, combined with JS `Number` on a digit string). -/
def digitsToNat : List Char → Option Nat
  | [] => none
  | cs => digitsToNatAux 0 cs

/-- Embedding of the demultiplexing regex `^(cpu|ni|no)(\d+)$`: a known kind
prefix followed by one or more decimal digits and nothing else. -/
def parseQueryId (s : String) : Option (MetricKind × Nat) :=
  if "cpu".data.isPrefixOf s.data then (digitsToNat (s.data.drop 3)).map (⟨MetricKind.cpu, ·⟩)
  else if "ni".data.isPrefixOf s.data then (digitsToNat (s.data.drop 2)).map (⟨MetricKind.ni, ·⟩)
  else if "no".data.isPrefixOf s.data then (digitsToNat (s.data.drop 2)).map (⟨MetricKind.no, ·⟩)
  else none

/-- The three-way `if (metricKind === ...)` update: the matched kind's value
and count fields are overwritten from this result's finite values; the other
fields are kept. -/
def updateAgg (agg : metricAggregation) (kind : MetricKind) (values : List ℚ) :
    metricAggregation :=
  match kind with
  | .cpu => { agg with cpuAvg := average values, cpuCount := some values.length }
  | .ni => { agg with netInTotal := sum values, netInCount := some values.length }
  | .no => { agg with netOutTotal := sum values, netOutCount := some values.length }

/-- Processing of one `MetricDataResult` inside the response loop: parse the
synthetic identifier, bounds-check the decoded index, and overwrite the
matched kind's aggregate fields of the instance at that index.  Malformed or
out-of-range results leave the map untouched (`continue`). -/
def applyMetricDataResult (instanceIds : List String) (m : AggMap)
    (r : MetricDataResult) : AggMap :=
  let values := finiteValues r.Values
  match parseQueryId (r.Id.getD "") with
  | none => m
  | some (kind, idx) =>
    if h : idx < instanceIds.length then
      let instanceId := instanceIds.get ⟨idx, h⟩
      fun id => if id = instanceId then updateAgg (m instanceId) kind values else m id
    else m

/-- Processing of the `MetricDataResults` of one response page. -/
def processPage (instanceIds : List String) (m : AggMap)
    (page : List MetricDataResult) : AggMap :=
  page.foldl (applyMetricDataResult instanceIds) m

/-- Processing of a sequence of response pages (the concatenation, in
processing order, of every chunk's continuation-token pages). -/
def processPages (instanceIds : List String) (m : AggMap)
    (pages : List (List MetricDataResult)) : AggMap :=
  pages.foldl (processPage instanceIds) m

/-- Processing of a flat result stream; page boundaries do not influence the
reduction, so `processPages` coincides with this on the flattened stream. -/
def processStream (instanceIds : List String) (m : AggMap)
    (results : List MetricDataResult) : AggMap :=
  results.foldl (applyMetricDataResult instanceIds) m

/-- The empty aggregation map every invocation starts from. -/
def emptyAggMap : AggMap := fun _ => {}

/-- Aggregation state after the whole response stream has been consumed. -/
def finalAggMap (instanceIds : List String) (pages : List (List MetricDataResult)) :
    AggMap :=
  processPages instanceIds emptyAggMap pages

/-- The final per-instance conversion from `metricAggregation` to
`idleMetrics` (the body of the closing `for` loop). -/
def idleMetricsOfAgg (a : metricAggregation) : idleMetrics :=
  { cpuAvg := a.cpuAvg
    netInBytesTotal := a.netInTotal
    netOutBytesTotal := a.netOutTotal
    dataPointsCpu := a.cpuCount
    dataPointsNetIn := a.netInCount
    dataPointsNetOut := a.netOutCount }

/-- Embedding of the observable behaviour of `getIdleMetricsForInstances`:
given the input instance-id sequence and the upstream response pages, the
returned mapping is built by iterating over `instanceIds` in order. -/
def getIdleMetricsForInstances (instanceIds : List String)
    (pages : List (List MetricDataResult)) : List (String × idleMetrics) :=
  instanceIds.map fun instanceId =>
    (instanceId, idleMetricsOfAgg (finalAggMap instanceIds pages instanceId))

/-- Value field of an aggregation record selected by kind. -/
def aggValue (a : metricAggregation) : MetricKind → Option ℚ
  | .cpu => a.cpuAvg
  | .ni => a.netInTotal
  | .no => a.netOutTotal

/-- Count field of an aggregation record selected by kind. -/
def aggCount (a : metricAggregation) : MetricKind → Option Nat
  | .cpu => a.cpuCount
  | .ni => a.netInCount
  | .no => a.netOutCount

/-- The reduction a kind applies to a value list: mean for utilization, sum
for the two volume kinds. -/
def kindAggregate (kind : MetricKind) (values : List ℚ) : Option ℚ :=
  match kind with
  | .cpu => average values
  | .ni => sum values
  | .no => sum values

/-- Value field of an `idleMetrics` record selected by kind. -/
def metricValue (m : idleMetrics) : MetricKind → Option ℚ
  | .cpu => m.cpuAvg
  | .ni => m.netInBytesTotal
  | .no => m.netOutBytesTotal

/-- Count field of an `idleMetrics` record selected by kind. -/
def metricCount (m : idleMetrics) : MetricKind → Option Nat
  | .cpu => m.dataPointsCpu
  | .ni => m.dataPointsNetIn
  | .no => m.dataPointsNetOut

/-- The results of a stream whose identifier decodes to `(kind, idx)`. -/
def resultsFor (kind : MetricKind) (idx : Nat) (results : List MetricDataResult) :
    List MetricDataResult :=
  results.filter fun r => decide (parseQueryId (r.Id.getD "") = some (kind, idx))

/-- All finite datapoints observed for `(kind, idx)` across a whole stream,
in order — the quantity claim C3 aggregates over. -/
def allFiniteDatapoints (kind : MetricKind) (idx : Nat)
    (results : List MetricDataResult) : List ℚ :=
  (resultsFor kind idx results).flatMap fun r => finiteValues r.Values

/-- Claim-side consistency of one metric kind's value and count fields: the
value is defined only alongside a count of at least one, and a recorded count
of zero forces an undefined value. -/
def ValueCountConsistent (value : Option ℚ) (count : Option Nat) : Prop :=
  (∀ v, value = some v → ∃ n, count = some n ∧ 1 ≤ n) ∧
  (count = some 0 → value = none)

/-! ## Instance listing (src/awsEc2Idle.ts, lines 50-132) -/

/-- One raw tag of a described instance; both key and value may be absent. -/
structure RawTag where
  Key : Option String
  Value : Option String
deriving DecidableEq

/-- Raw instance record of a `DescribeInstances` response.  The launch time is
carried as its rendered ISO-8601 string (the `Date → toISOString` step is
modelled as the identity on that rendering). -/
structure RawInstance where
  InstanceId : Option String
  Tags : List RawTag := []
  InstanceType : Option String := none
  StateName : Option String := none
  LaunchTimeIso : Option String := none
  AvailabilityZone : Option String := none
deriving DecidableEq

/-- One `DescribeInstances` response page: reservations (each a list of
instances) and an optional continuation token. -/
structure DescribeResponse where
  Reservations : List (List RawInstance)
  NextToken : Option String
deriving DecidableEq

/-- JS record assignment `out[k] = v`: update in place if the key exists,
otherwise append, preserving insertion order. -/
def recordSet (m : List (String × String)) (k v : String) : List (String × String) :=
  if m.any (fun p => p.1 == k) then m.map (fun p => if p.1 == k then (k, v) else p)
  else m ++ [(k, v)]

/-- Embedding of `tagsToRecord`: keep tags whose key is truthy (present and
non-empty) and whose value is a string. -/
def tagsToRecord (tags : List RawTag) : List (String × String) :=
  tags.foldl
    (fun acc t =>
      match t.Key, t.Value with
      | some k, some v => if k ≠ "" then recordSet acc k v else acc
      | _, _ => acc)
    []

/-- Embedding of `getNameTag`: the `Name` tag when present and non-blank. -/
def getNameTag (tags : List (String × String)) : Option String :=
  match (tags.find? fun p => p.1 == "Name").map (·.2) with
  | some n => if n.trim.length ≠ 0 then some n else none
  | none => none

/-- Summary built for one raw instance that has an id (the `instances.push`
payload). -/
def summaryOfRawInstance (iid : String) (inst : RawInstance) : ec2InstanceSummary :=
  let tags := tagsToRecord inst.Tags
  { instanceId := iid
    name := getNameTag tags
    instanceType := inst.InstanceType
    state := inst.StateName
    launchTime := inst.LaunchTimeIso
    availabilityZone := inst.AvailabilityZone
    tags := some tags }

/-- Inner `for (const inst of reservation.Instances)` loop: skip id-less
instances, push the summary, break once the cap is reached. -/
def ingestInstances (maxInstances : Nat) (acc : List ec2InstanceSummary) :
    List RawInstance → List ec2InstanceSummary
  | [] => acc
  | inst :: rest =>
    match inst.InstanceId with
    | none => ingestInstances maxInstances acc rest
    | some iid =>
      let acc' := acc ++ [summaryOfRawInstance iid inst]
      if maxInstances ≤ acc'.length then acc'
      else ingestInstances maxInstances acc' rest

/-- Outer `for (const reservation of resp.Reservations)` loop with its own
break once the cap is reached. -/
def ingestReservations (maxInstances : Nat) (acc : List ec2InstanceSummary) :
    List (List RawInstance) → List ec2InstanceSummary
  | [] => acc
  | r :: rest =>
    let acc' := ingestInstances maxInstances acc r
    if maxInstances ≤ acc'.length then acc'
    else ingestReservations maxInstances acc' rest

/-- The pagination `while` loop of `listEc2InstancesCapped`.  The upstream is
modelled as the finite sequence of response pages it would serve; the loop
also stops if that sequence is exhausted.  Besides the collected summaries the
model returns, for each request actually issued, the pair
(collected-so-far, requested `MaxResults`). -/
def listEc2CappedGo (maxInstances : Nat) (acc : List ec2InstanceSummary) :
    List DescribeResponse → List ec2InstanceSummary × List (Nat × Nat)
  | [] => (acc, [])
  | resp :: rest =>
    if acc.length < maxInstances then
      let maxResults := min 1000 (max 5 (maxInstances - acc.length))
      let acc' := ingestReservations maxInstances acc resp.Reservations
      match resp.NextToken with
      | none => (acc', [(acc.length, maxResults)])
      | some _ =>
        let next := listEc2CappedGo maxInstances acc' rest
        (next.1, (acc.length, maxResults) :: next.2)
    else (acc, [])

/-- Embedding of `listEc2InstancesCapped` (the lifecycle-state filter only
parameterizes the upstream request and is abstracted into the response
stream). -/
def listEc2InstancesCapped (maxInstances : Nat) (responses : List DescribeResponse) :
    List ec2InstanceSummary × List (Nat × Nat) :=
  listEc2CappedGo maxInstances [] responses

/-! ## Ranking (src/AWSFunctions.ts, lines 571-588) -/

/-- Source helper `confidenceRank`: HIGH 0, MEDIUM 1, LOW 2. -/
def confidenceRank : Confidence → Nat
  | .HIGH => 0
  | .MEDIUM => 1
  | .LOW => 2

/-- First sort key: `idle=true` sorts before `idle=false`. -/
def idleRank (c : idleCandidate) : Nat := if c.idle then 0 else 1

/-- Fourth sort key: combined network total with absent fields read as 0. -/
def candidateNetTotal (c : idleCandidate) : ℚ :=
  c.metrics.netInBytesTotal.getD 0 + c.metrics.netOutBytesTotal.getD 0

/-- Sign of a natural-number difference, as an `Ordering`. -/
def cmpNat (x y : Nat) : Ordering :=
  if x < y then .lt else if y < x then .gt else .eq

/-- Sign of a rational difference, as an `Ordering`. -/
def cmpQ (x y : ℚ) : Ordering :=
  if x < y then .lt else if y < x then .gt else .eq

/-- Third sort key comparison: utilization average ascending with `undefined`
read as positive infinity (`a.cpuAvg ?? Number.POSITIVE_INFINITY`). -/
def cmpCpuAvg : Option ℚ → Option ℚ → Ordering
  | none, none => .eq
  | none, some _ => .gt
  | some _, none => .lt
  | some x, some y => cmpQ x y

/-- Lexicographic chaining of two comparators. -/
def cmpThen {α : Type} (c₁ c₂ : α → α → Ordering) : α → α → Ordering :=
  fun x y => (c₁ x y).then (c₂ x y)

/-- Comparator lifted along a key function. -/
def cmpOn {α β : Type} (f : α → β) (c : β → β → Ordering) : α → α → Ordering :=
  fun x y => c (f x) (f y)

/-- Embedding of the `candidates.sort((a, b) => ...)` comparator: the sign of
the returned JS number, as an `Ordering`.  The four stages mirror the source:
idle flag, confidence rank difference, cpu average (undefined as +infinity),
then network total difference. -/
def compareCandidates : idleCandidate → idleCandidate → Ordering :=
  cmpThen (cmpOn idleRank cmpNat)
    (cmpThen (cmpOn (fun c => confidenceRank c.confidence) cmpNat)
      (cmpThen (cmpOn (fun c => c.metrics.cpuAvg) cmpCpuAvg)
        (cmpOn candidateNetTotal cmpQ)))

/-- Non-strict comparison derived from the comparator (`cmp(a,b) <= 0`). -/
def candidateLE (a b : idleCandidate) : Bool := compareCandidates a b != .gt

/-- Embedding of the ranking step.  ECMAScript `Array.prototype.sort` is
specified to be stable, and the comparator above is consistent, so the result
is the unique stable sort by `compareCandidates`; it is modelled by a stable
merge sort. -/
def rankCandidates (candidates : List idleCandidate) : List idleCandidate :=
  candidates.mergeSort candidateLE

/-- Claim-side relation: candidates `a` and `b` agree on all four sort keys. -/
def FourKeyEq (a b : idleCandidate) : Prop :=
  a.idle = b.idle ∧ a.confidence = b.confidence ∧
  a.metrics.cpuAvg = b.metrics.cpuAvg ∧ candidateNetTotal a = candidateNetTotal b

/-- Claim-side strict order on the cpu key: `undefined` is positive infinity. -/
def CpuKeyLT : Option ℚ → Option ℚ → Prop
  | some _, none => True
  | some x, some y => x < y
  | none, _ => False

/-- Claim-side four-key ordering: `a` may come before `b` — idle before
non-idle, then HIGH before MEDIUM before LOW, then cpu average ascending with
undefined last, then network total ascending. -/
def FourKeyLE (a b : idleCandidate) : Prop :=
  (a.idle = true ∧ b.idle = false) ∨
  (a.idle = b.idle ∧
    (confidenceRank a.confidence < confidenceRank b.confidence ∨
      (a.confidence = b.confidence ∧
        (CpuKeyLT a.metrics.cpuAvg b.metrics.cpuAvg ∨
          (a.metrics.cpuAvg = b.metrics.cpuAvg ∧
            candidateNetTotal a ≤ candidateNetTotal b)))))

/-- Lawfulness of an `Ordering`-valued comparator: swapping arguments swaps
the verdict, equal elements are interchangeable on the left, and strict
comparison is transitive. -/
structure LawfulCmp {α : Type} (c : α → α → Ordering) : Prop where
  swap_eq : ∀ x y, c y x = (c x y).swap
  eq_left : ∀ x y z, c x y = .eq → c x z = c y z
  lt_trans : ∀ x y z, c x y = .lt → c y z = .lt → c x z = .lt

/-! ## Theorems: classifier bridge lemmas -/

theorem isExcludedByTag_iff (inst : ec2InstanceSummary) (keys : List String) :
    isExcludedByTag inst keys = true ↔ TagExcluded inst keys := by
  simp [isExcludedByTag, TagExcluded, List.any_eq_true]

theorem isExcludedByTag_false_iff (inst : ec2InstanceSummary) (keys : List String) :
    isExcludedByTag inst keys = false ↔ ¬ TagExcluded inst keys := by
  rw [← isExcludedByTag_iff]
  simp

theorem hasEnoughMetricCoverage_iff (m : idleMetrics) (minDataPoints : Nat) :
    hasEnoughMetricCoverage m minDataPoints = true ↔ SufficientCoverage m minDataPoints := by
  simp [hasEnoughMetricCoverage, SufficientCoverage, cpuPoints, netInPoints, netOutPoints,
    Bool.and_eq_true, and_assoc]

theorem hasEnoughMetricCoverage_false_iff (m : idleMetrics) (minDataPoints : Nat) :
    hasEnoughMetricCoverage m minDataPoints = false ↔ ¬ SufficientCoverage m minDataPoints := by
  rw [← hasEnoughMetricCoverage_iff]
  simp

theorem cpuLooksIdle_iff (m : idleMetrics) (cpuThresholdPct : ℚ) :
    cpuLooksIdle m cpuThresholdPct = true ↔ CpuOk m cpuThresholdPct := by
  cases h : m.cpuAvg with
  | none => simp [cpuLooksIdle, CpuOk, h]
  | some v => simp [cpuLooksIdle, CpuOk, h]

theorem networkLooksIdle_iff (m : idleMetrics) (netTotalThresholdBytes : ℚ) :
    networkLooksIdle m netTotalThresholdBytes = true ↔ NetOk m netTotalThresholdBytes := by
  simp [networkLooksIdle, NetOk, netTotalBytes]

/-- C1: the `idle` verdict of `classifyIdle` is true exactly when the instance
is not tag-excluded, all three datapoint counts (defaulting to 0 when absent)
reach `minDataPoints`, the utilization average is defined and at most the cpu
threshold (an undefined average never counts as OK), and the combined
ingress+egress total (absent fields read as 0) is at most the network
threshold. -/
theorem classifyIdle_idle_iff (inst : ec2InstanceSummary) (metrics : idleMetrics)
    (cpuThresholdPct netTotalThresholdBytes : ℚ) (minDataPoints : Nat)
    (excludeTagKeys : List String) :
    (classifyIdle inst metrics cpuThresholdPct netTotalThresholdBytes minDataPoints
        excludeTagKeys).idle = true ↔
      ¬ TagExcluded inst excludeTagKeys ∧
      SufficientCoverage metrics minDataPoints ∧
      CpuOk metrics cpuThresholdPct ∧
      NetOk metrics netTotalThresholdBytes := by
  simp only [classifyIdle, Bool.and_eq_true, Bool.not_eq_true']
  rw [isExcludedByTag_false_iff, hasEnoughMetricCoverage_iff, cpuLooksIdle_iff,
    networkLooksIdle_iff]
  tauto

/-- C2: confidence policy of `classifyIdle` — tag exclusion forces LOW; with
no exclusion, full coverage plus both threshold checks give HIGH, coverage
alone gives MEDIUM, and missing coverage gives LOW.  Consequently an idle
verdict implies HIGH confidence, and a tag-excluded instance reports LOW (and
is not idle) even when its metrics alone satisfy the HIGH conditions. -/
theorem classifyIdle_confidence_policy (inst : ec2InstanceSummary) (metrics : idleMetrics)
    (cpuThresholdPct netTotalThresholdBytes : ℚ) (minDataPoints : Nat)
    (excludeTagKeys : List String) :
    (TagExcluded inst excludeTagKeys →
      (classifyIdle inst metrics cpuThresholdPct netTotalThresholdBytes minDataPoints
        excludeTagKeys).confidence = .LOW) ∧
    (¬ TagExcluded inst excludeTagKeys → SufficientCoverage metrics minDataPoints →
      CpuOk metrics cpuThresholdPct → NetOk metrics netTotalThresholdBytes →
      (classifyIdle inst metrics cpuThresholdPct netTotalThresholdBytes minDataPoints
        excludeTagKeys).confidence = .HIGH) ∧
    (¬ TagExcluded inst excludeTagKeys → SufficientCoverage metrics minDataPoints →
      ¬ (CpuOk metrics cpuThresholdPct ∧ NetOk metrics netTotalThresholdBytes) →
      (classifyIdle inst metrics cpuThresholdPct netTotalThresholdBytes minDataPoints
        excludeTagKeys).confidence = .MEDIUM) ∧
    (¬ TagExcluded inst excludeTagKeys → ¬ SufficientCoverage metrics minDataPoints →
      (classifyIdle inst metrics cpuThresholdPct netTotalThresholdBytes minDataPoints
        excludeTagKeys).confidence = .LOW) ∧
    ((classifyIdle inst metrics cpuThresholdPct netTotalThresholdBytes minDataPoints
        excludeTagKeys).idle = true →
      (classifyIdle inst metrics cpuThresholdPct netTotalThresholdBytes minDataPoints
        excludeTagKeys).confidence = .HIGH) ∧
    (TagExcluded inst excludeTagKeys → SufficientCoverage metrics minDataPoints →
      CpuOk metrics cpuThresholdPct → NetOk metrics netTotalThresholdBytes →
      (classifyIdle inst metrics cpuThresholdPct netTotalThresholdBytes minDataPoints
        excludeTagKeys).confidence = .LOW ∧
      (classifyIdle inst metrics cpuThresholdPct netTotalThresholdBytes minDataPoints
        excludeTagKeys).idle = false) := by
  refine ⟨?_, ?_, ?_, ?_, ?_, ?_⟩
  · intro hT
    have h1 : isExcludedByTag inst excludeTagKeys = true := (isExcludedByTag_iff _ _).mpr hT
    simp [classifyIdle, h1]
  · intro hT hS hc hn
    have h1 : isExcludedByTag inst excludeTagKeys = false :=
      (isExcludedByTag_false_iff _ _).mpr hT
    have h2 : hasEnoughMetricCoverage metrics minDataPoints = true :=
      (hasEnoughMetricCoverage_iff _ _).mpr hS
    have h3 : cpuLooksIdle metrics cpuThresholdPct = true := (cpuLooksIdle_iff _ _).mpr hc
    have h4 : networkLooksIdle metrics netTotalThresholdBytes = true :=
      (networkLooksIdle_iff _ _).mpr hn
    simp [classifyIdle, h1, h2, h3, h4]
  · intro hT hS hcn
    have h1 : isExcludedByTag inst excludeTagKeys = false :=
      (isExcludedByTag_false_iff _ _).mpr hT
    have h2 : hasEnoughMetricCoverage metrics minDataPoints = true :=
      (hasEnoughMetricCoverage_iff _ _).mpr hS
    have h34 : cpuLooksIdle metrics cpuThresholdPct = false ∨
        networkLooksIdle metrics netTotalThresholdBytes = false := by
      by_contra h
      push_neg at h
      exact hcn ⟨(cpuLooksIdle_iff _ _).mp (by simpa using h.1),
        (networkLooksIdle_iff _ _).mp (by simpa using h.2)⟩
    rcases h34 with h3 | h4
    · simp [classifyIdle, h1, h2, h3]
    · simp [classifyIdle, h1, h2, h4]
  · intro hT hS
    have h1 : isExcludedByTag inst excludeTagKeys = false :=
      (isExcludedByTag_false_iff _ _).mpr hT
    have h2 : hasEnoughMetricCoverage metrics minDataPoints = false :=
      (hasEnoughMetricCoverage_false_iff _ _).mpr hS
    simp [classifyIdle, h1, h2]
  · intro hIdle
    simp only [classifyIdle, Bool.and_eq_true, Bool.not_eq_true'] at hIdle
    obtain ⟨⟨⟨h1, h2⟩, h3⟩, h4⟩ := hIdle
    simp [classifyIdle, h1, h2, h3, h4]
  · intro hT _ _ _
    have h1 : isExcludedByTag inst excludeTagKeys = true := (isExcludedByTag_iff _ _).mpr hT
    simp [classifyIdle, h1]

/-- C7: the reason list of `classifyIdle` is the exclusion line exactly when
tag-excluded, followed by the coverage line exactly when coverage is
insufficient, followed always by the utilization summary line and the
network-total summary line; in particular it is non-empty and its last two
entries are those two summary lines. -/
theorem classifyIdle_reason_spec (inst : ec2InstanceSummary) (metrics : idleMetrics)
    (cpuThresholdPct netTotalThresholdBytes : ℚ) (minDataPoints : Nat)
    (excludeTagKeys : List String) :
    (classifyIdle inst metrics cpuThresholdPct netTotalThresholdBytes minDataPoints
        excludeTagKeys).reason =
      (if TagExcluded inst excludeTagKeys then [exclusionReason excludeTagKeys] else []) ++
      (if SufficientCoverage metrics minDataPoints then []
        else [coverageReason metrics minDataPoints]) ++
      [cpuReason metrics cpuThresholdPct, netReason metrics netTotalThresholdBytes] ∧
    (classifyIdle inst metrics cpuThresholdPct netTotalThresholdBytes minDataPoints
        excludeTagKeys).reason ≠ [] ∧
    (classifyIdle inst metrics cpuThresholdPct netTotalThresholdBytes minDataPoints
        excludeTagKeys).reason.drop
        ((classifyIdle inst metrics cpuThresholdPct netTotalThresholdBytes minDataPoints
          excludeTagKeys).reason.length - 2) =
      [cpuReason metrics cpuThresholdPct, netReason metrics netTotalThresholdBytes] := by
  have hE : (isExcludedByTag inst excludeTagKeys = true) ↔ TagExcluded inst excludeTagKeys :=
    isExcludedByTag_iff _ _
  have hC : (hasEnoughMetricCoverage metrics minDataPoints = true) ↔
      SufficientCoverage metrics minDataPoints := hasEnoughMetricCoverage_iff _ _
  cases h1 : isExcludedByTag inst excludeTagKeys <;>
      cases h2 : hasEnoughMetricCoverage metrics minDataPoints <;>
    (rw [h1] at hE
     rw [h2] at hC
     simp at hE hC
     exact ⟨by simp [classifyIdle, h1, h2, hE, hC],
       by simp [classifyIdle, h1, h2],
       by simp [classifyIdle, h1, h2]⟩)

/-! ## Theorems: query construction and chunking (C6) -/

theorem buildMetricQueriesFrom_length (periodSeconds : Nat) :
    ∀ (instanceIds : List String) (index : Nat),
      (buildMetricQueriesFrom periodSeconds index instanceIds).length =
        3 * instanceIds.length := by
  intro instanceIds
  induction instanceIds with
  | nil => intro index; simp [buildMetricQueriesFrom]
  | cons id rest ih =>
    intro index
    simp [buildMetricQueriesFrom, ih (index + 1)]
    ring

theorem buildMetricQueriesFrom_triple (periodSeconds : Nat) :
    ∀ (instanceIds : List String) (index i : Nat) (hi : i < instanceIds.length),
      ((buildMetricQueriesFrom periodSeconds index instanceIds).drop (3 * i)).take 3 =
        [cpuQuery periodSeconds (index + i) (instanceIds.get ⟨i, hi⟩),
         niQuery periodSeconds (index + i) (instanceIds.get ⟨i, hi⟩),
         noQuery periodSeconds (index + i) (instanceIds.get ⟨i, hi⟩)] := by
  intro instanceIds
  induction instanceIds with
  | nil => intro index i hi; simp at hi
  | cons id rest ih =>
    intro index i hi
    match i with
    | 0 => simp [buildMetricQueriesFrom]
    | i + 1 =>
      have h3 : 3 * (i + 1) = (3 * i) + 1 + 1 + 1 := by ring
      have hi' : i < rest.length := by simp at hi; omega
      simp only [buildMetricQueriesFrom, h3, List.drop_succ_cons]
      have := ih (index + 1) i hi'
      rw [this]
      simp [Nat.add_assoc, Nat.add_comm 1 i]

theorem chunkList_flatten {α : Type} (l : List α) : (chunkList l).flatten = l := by
  induction l using chunkList.induct with
  | case1 => simp [chunkList]
  | case2 x xs ih =>
    rw [chunkList]
    simp only [List.flatten_cons, ih, List.take_append_drop]

theorem chunkList_chunk_le {α : Type} (l : List α) :
    ∀ c ∈ chunkList l, c.length ≤ maxQueriesPerCall := by
  induction l using chunkList.induct with
  | case1 => simp [chunkList]
  | case2 x xs ih =>
    rw [chunkList]
    intro c hc
    rcases List.mem_cons.mp hc with h | h
    · subst h
      exact List.length_take_le maxQueriesPerCall (x :: xs)
    · exact ih c h

theorem chunkList_length {α : Type} (l : List α) :
    (chunkList l).length = (l.length + (maxQueriesPerCall - 1)) / maxQueriesPerCall := by
  induction l using chunkList.induct with
  | case1 => simp [chunkList, maxQueriesPerCall]
  | case2 x xs ih =>
    rw [chunkList]
    simp only [List.length_cons, ih, List.length_drop]
    simp only [maxQueriesPerCall]
    omega

/-- C6: for `N` input instance ids the aggregator builds exactly `3 * N` query
descriptors — three per instance, in input order, the identifiers encoding
kind and positional index — and splits them, order-preserving, into chunks of
at most `maxQueriesPerCall = 450` descriptors, producing exactly
`ceil(3 * N / 450)` chunk submissions; 1200 instances give exactly 8 chunks. -/
theorem getIdleMetrics_chunking (instanceIds : List String) (periodSeconds : Nat) :
    (buildMetricQueries instanceIds periodSeconds).length = 3 * instanceIds.length ∧
    (∀ i, (hi : i < instanceIds.length) →
      ((buildMetricQueries instanceIds periodSeconds).drop (3 * i)).take 3 =
        [cpuQuery periodSeconds i (instanceIds.get ⟨i, hi⟩),
         niQuery periodSeconds i (instanceIds.get ⟨i, hi⟩),
         noQuery periodSeconds i (instanceIds.get ⟨i, hi⟩)]) ∧
    (chunkList (buildMetricQueries instanceIds periodSeconds)).flatten =
      buildMetricQueries instanceIds periodSeconds ∧
    (∀ c ∈ chunkList (buildMetricQueries instanceIds periodSeconds),
      c.length ≤ maxQueriesPerCall) ∧
    (chunkList (buildMetricQueries instanceIds periodSeconds)).length =
      (3 * instanceIds.length + (maxQueriesPerCall - 1)) / maxQueriesPerCall ∧
    (instanceIds.length = 1200 →
      (chunkList (buildMetricQueries instanceIds periodSeconds)).length = 8) := by
  have hlen : (buildMetricQueries instanceIds periodSeconds).length =
      3 * instanceIds.length := buildMetricQueriesFrom_length _ _ _
  refine ⟨hlen, ?_, chunkList_flatten _, chunkList_chunk_le _, ?_, ?_⟩
  · intro i hi
    have h := buildMetricQueriesFrom_triple periodSeconds instanceIds 0 i hi
    rw [Nat.zero_add] at h
    exact h
  · rw [chunkList_length, hlen]
  · intro h
    rw [chunkList_length, hlen, h]
    simp [maxQueriesPerCall]

/-- Witness for C6 at a concrete input: 1200 instance ids yield exactly 8
chunks. -/
theorem getIdleMetrics_chunking_witness :
    (List.replicate 1200 "i-0").length = 1200 ∧
    (chunkList (buildMetricQueries (List.replicate 1200 "i-0") 3600)).length = 8 :=
  ⟨List.length_replicate 1200 "i-0",
    (getIdleMetrics_chunking (List.replicate 1200 "i-0") 3600).2.2.2.2.2
      (List.length_replicate 1200 "i-0")⟩

/-! ## Theorems: aggregation reduction (C3, C4, C9, C10) -/

theorem processPages_eq_processStream (ids : List String) (m : AggMap)
    (pages : List (List MetricDataResult)) :
    processPages ids m pages = processStream ids m pages.flatten := by
  show pages.foldl (processPage ids) m = (pages.flatten).foldl (applyMetricDataResult ids) m
  rw [List.foldl_flatten]
  rfl

theorem aggValue_updateAgg_same (a : metricAggregation) (kind : MetricKind) (vs : List ℚ) :
    aggValue (updateAgg a kind vs) kind = kindAggregate kind vs := by
  cases kind <;> rfl

theorem aggCount_updateAgg_same (a : metricAggregation) (kind : MetricKind) (vs : List ℚ) :
    aggCount (updateAgg a kind vs) kind = some vs.length := by
  cases kind <;> rfl

theorem aggValue_updateAgg_ne (a : metricAggregation) {k' kind : MetricKind}
    (h : k' ≠ kind) (vs : List ℚ) :
    aggValue (updateAgg a k' vs) kind = aggValue a kind := by
  cases k' <;> cases kind <;> first | exact absurd rfl h | rfl

theorem aggCount_updateAgg_ne (a : metricAggregation) {k' kind : MetricKind}
    (h : k' ≠ kind) (vs : List ℚ) :
    aggCount (updateAgg a k' vs) kind = aggCount a kind := by
  cases k' <;> cases kind <;> first | exact absurd rfl h | rfl

theorem resultsFor_append (kind : MetricKind) (i : Nat) (l l' : List MetricDataResult) :
    resultsFor kind i (l ++ l') = resultsFor kind i l ++ resultsFor kind i l' :=
  List.filter_append _ _

theorem aggValue_emptyAggMap (id : String) (kind : MetricKind) :
    aggValue (emptyAggMap id) kind = none := by
  cases kind <;> rfl

theorem aggCount_emptyAggMap (id : String) (kind : MetricKind) :
    aggCount (emptyAggMap id) kind = none := by
  cases kind <;> rfl

/-- Core reduction lemma: because each matched result overwrites the
aggregate fields of its kind, the state after a result stream is determined,
per kind, by the last matching result alone. -/
theorem processStream_lastResult (ids : List String) (kind : MetricKind) (i : Nat)
    (hnd : ids.Nodup) (hi : i < ids.length) :
    ∀ (results : List MetricDataResult) (m : AggMap),
      aggValue (processStream ids m results (ids.get ⟨i, hi⟩)) kind =
        ((resultsFor kind i results).getLast?).elim
          (aggValue (m (ids.get ⟨i, hi⟩)) kind)
          (fun r => kindAggregate kind (finiteValues r.Values)) ∧
      aggCount (processStream ids m results (ids.get ⟨i, hi⟩)) kind =
        ((resultsFor kind i results).getLast?).elim
          (aggCount (m (ids.get ⟨i, hi⟩)) kind)
          (fun r => some (finiteValues r.Values).length) := by
  intro results
  induction results using List.reverseRecOn with
  | nil => intro m; simp [processStream, resultsFor]
  | append_singleton l r ih =>
    intro m
    have hfold : processStream ids m (l ++ [r]) =
        applyMetricDataResult ids (processStream ids m l) r := by
      simp [processStream, List.foldl_append]
    rw [hfold, resultsFor_append]
    rcases hp : parseQueryId (r.Id.getD "") with _ | ⟨k', j⟩
    · have hres : resultsFor kind i [r] = [] := by simp [resultsFor, hp]
      have happ : applyMetricDataResult ids (processStream ids m l) r =
          processStream ids m l := by
        simp [applyMetricDataResult, hp]
      rw [hres, List.append_nil, happ]
      exact ih m
    · by_cases hj : j < ids.length
      · have happ : applyMetricDataResult ids (processStream ids m l) r
              (ids.get ⟨i, hi⟩) =
            if ids.get ⟨i, hi⟩ = ids.get ⟨j, hj⟩ then
              updateAgg (processStream ids m l (ids.get ⟨j, hj⟩)) k' (finiteValues r.Values)
            else processStream ids m l (ids.get ⟨i, hi⟩) := by
          simp [applyMetricDataResult, hp, hj]
        rw [happ]
        by_cases hmatch : k' = kind ∧ j = i
        · obtain ⟨hk, hji⟩ := hmatch
          subst hk
          subst hji
          have hres : resultsFor k' j [r] = [r] := by simp [resultsFor, hp]
          rw [hres, List.getLast?_concat, if_pos rfl]
          constructor
          · simp [aggValue_updateAgg_same]
          · simp [aggCount_updateAgg_same]
        · have hne : ¬ ((k', j) = (kind, i)) := by
            simpa [Prod.ext_iff] using hmatch
          have hpred : decide (parseQueryId (r.Id.getD "") = some (kind, i)) = false := by
            rw [decide_eq_false_iff_not, hp]
            simp only [Option.some.injEq]
            exact hne
          have hres : resultsFor kind i [r] = [] := by
            simp [resultsFor, hpred]
          rw [hres, List.append_nil]
          by_cases hji : j = i
          · subst hji
            have hk : k' ≠ kind := by
              intro hk
              exact hne (by rw [hk])
            rw [if_pos rfl]
            rw [aggValue_updateAgg_ne _ hk, aggCount_updateAgg_ne _ hk]
            exact ih m
          · have hid : ids.get ⟨i, hi⟩ ≠ ids.get ⟨j, hj⟩ := by
              intro heq2
              exact hji ((Fin.mk.injEq _ _ _ _).mp ((hnd.get_inj_iff).mp heq2)).symm
            rw [if_neg hid]
            exact ih m
      · have happ : applyMetricDataResult ids (processStream ids m l) r =
            processStream ids m l := by
          simp [applyMetricDataResult, hp, hj]
        have hne : ¬ ((k', j) = (kind, i)) := by
          intro hEq
          apply hj
          have h2 : j = i := congrArg Prod.snd hEq
          rw [h2]
          exact hi
        have hpred : decide (parseQueryId (r.Id.getD "") = some (kind, i)) = false := by
          rw [decide_eq_false_iff_not, hp]
          simp only [Option.some.injEq]
          exact hne
        have hres : resultsFor kind i [r] = [] := by
          simp [resultsFor, hpred]
        rw [hres, List.append_nil, happ]
        exact ih m

theorem metricValue_idleMetricsOfAgg (a : metricAggregation) (kind : MetricKind) :
    metricValue (idleMetricsOfAgg a) kind = aggValue a kind := by
  cases kind <;> rfl

theorem metricCount_idleMetricsOfAgg (a : metricAggregation) (kind : MetricKind) :
    metricCount (idleMetricsOfAgg a) kind = aggCount a kind := by
  cases kind <;> rfl

theorem kindAggregate_nil (kind : MetricKind) : kindAggregate kind [] = none := by
  cases kind <;> rfl

/-- C3 counterexample: with a result for the same query split across two
continuation-token pages, the code overwrites the aggregate with the later
result instead of accumulating: the reported average is `2` with count `1`,
while the mean of all finite utilization datapoints observed across the pages
(`[0, 2]`) is `1` with count `2`. -/
theorem aggregation_not_cumulative_counterexample :
    ((getIdleMetricsForInstances ["i-1"]
        [[⟨some "cpu0", [RawDatapoint.value 0]⟩],
         [⟨some "cpu0", [RawDatapoint.value 2]⟩]]).map
      fun p => (p.1, p.2.cpuAvg, p.2.dataPointsCpu)) = [("i-1", some 2, some 1)] ∧
    allFiniteDatapoints MetricKind.cpu 0
        ([[⟨some "cpu0", [RawDatapoint.value 0]⟩],
          [⟨some "cpu0", [RawDatapoint.value 2]⟩]] :
          List (List MetricDataResult)).flatten = [0, 2] ∧
    average [0, 2] = some 1 ∧
    some (2 : ℚ) ≠ some (1 : ℚ) ∧
    some (1 : Nat) ≠ some (2 : Nat) := by
  refine ⟨?_, ?_, by norm_num [average], by norm_num, by norm_num⟩
  · have hparse : parseQueryId "cpu0" = some (MetricKind.cpu, 0) := rfl
    norm_num [getIdleMetricsForInstances, finalAggMap, processPages, processPage,
      List.foldl_cons, List.foldl_nil, applyMetricDataResult, hparse, emptyAggMap,
      finiteValues, List.filterMap_cons, List.filterMap_nil, updateAgg, average,
      idleMetricsOfAgg]
  · have hparse : parseQueryId "cpu0" = some (MetricKind.cpu, 0) := rfl
    norm_num [allFiniteDatapoints, resultsFor, hparse, finiteValues,
      List.filterMap_cons, List.filterMap_nil]

/-- Shared helper: the full last-result characterization of the final
aggregation state, also feeding the zero-datapoint corollaries. -/
theorem finalAggMap_lastResult (ids : List String)
    (pages : List (List MetricDataResult)) (hnd : ids.Nodup) (i : Nat)
    (hi : i < ids.length) :
    (∀ kind,
      aggValue (finalAggMap ids pages (ids.get ⟨i, hi⟩)) kind =
        ((resultsFor kind i pages.flatten).getLast?).elim none
          (fun r => kindAggregate kind (finiteValues r.Values)) ∧
      aggCount (finalAggMap ids pages (ids.get ⟨i, hi⟩)) kind =
        ((resultsFor kind i pages.flatten).getLast?).elim none
          (fun r => some (finiteValues r.Values).length)) ∧
    (ids.get ⟨i, hi⟩, idleMetricsOfAgg (finalAggMap ids pages (ids.get ⟨i, hi⟩))) ∈
      getIdleMetricsForInstances ids pages := by
  constructor
  · intro kind
    have h := processStream_lastResult ids kind i hnd hi pages.flatten emptyAggMap
    rw [aggValue_emptyAggMap, aggCount_emptyAggMap] at h
    rw [finalAggMap, processPages_eq_processStream]
    exact h
  · rw [getIdleMetricsForInstances]
    exact List.mem_map.mpr ⟨ids.get ⟨i, hi⟩, List.get_mem ids i hi, rfl⟩

/-- C3 (amended): the aggregator does not accumulate across results — for
each (kind, index) the LAST returned well-formed result wins outright: the
final value field is that result's finite datapoints reduced by the kind's
aggregation (mean for utilization, sum for the volume kinds), the count is the
number of that result's finite datapoints, and a (kind, index) never seen
leaves both fields undefined; the entry reaches the returned mapping
unchanged. -/
theorem getIdleMetrics_last_result_wins (ids : List String)
    (pages : List (List MetricDataResult)) (hnd : ids.Nodup) (i : Nat)
    (hi : i < ids.length) :
    (∀ kind,
      aggValue (finalAggMap ids pages (ids.get ⟨i, hi⟩)) kind =
        ((resultsFor kind i pages.flatten).getLast?).elim none
          (fun r => kindAggregate kind (finiteValues r.Values)) ∧
      aggCount (finalAggMap ids pages (ids.get ⟨i, hi⟩)) kind =
        ((resultsFor kind i pages.flatten).getLast?).elim none
          (fun r => some (finiteValues r.Values).length)) ∧
    (ids.get ⟨i, hi⟩, idleMetricsOfAgg (finalAggMap ids pages (ids.get ⟨i, hi⟩))) ∈
      getIdleMetricsForInstances ids pages :=
  finalAggMap_lastResult ids pages hnd i hi

/-- Witness for the amended C3 theorem at a concrete input: with two distinct
ids and one NetworkIn result of a single finite datapoint `3` for index 1, the
final aggregate of the second instance records a NetworkIn total of `3`. -/
theorem getIdleMetrics_last_result_wins_witness :
    (["i-a", "i-b"] : List String).Nodup ∧
    aggValue
      (finalAggMap ["i-a", "i-b"] [[⟨some "ni1", [RawDatapoint.value 3]⟩]]
        ((["i-a", "i-b"] : List String).get ⟨1, by norm_num⟩)) MetricKind.ni = some 3 := by
  refine ⟨by decide, ?_⟩
  have h := ((getIdleMetrics_last_result_wins ["i-a", "i-b"]
    [[⟨some "ni1", [RawDatapoint.value 3]⟩]] (by decide) 1 (by norm_num)).1 MetricKind.ni).1
  rw [h]
  have hparse : parseQueryId "ni1" = some (MetricKind.ni, 1) := rfl
  norm_num [resultsFor, hparse, kindAggregate, finiteValues, Daemo.sum,
    List.filterMap_cons, List.filterMap_nil]
  exact fun hcontra => Option.noConfusion hcontra

/-- C4 counterexample: with an upstream that returns no result at all, the
returned mapping's entry still exists but its datapoint counts are undefined,
not zero, so "count equal to zero" fails as stated. -/
theorem zero_results_count_undefined_counterexample :
    getIdleMetricsForInstances ["i-1"] [] =
      [("i-1",
        { cpuAvg := none, netInBytesTotal := none, netOutBytesTotal := none,
          dataPointsCpu := none, dataPointsNetIn := none, dataPointsNetOut := none })] ∧
    (none : Option Nat) ≠ some 0 :=
  ⟨rfl, by decide⟩

/-- C4 (amended): the returned mapping always carries exactly the input ids,
in order, never omitting an instance; for an instance all of whose returned
results for a kind carry zero finite datapoints, that kind's value field is
undefined, and its datapoint count is `0` when at least one result for that
kind was returned and undefined when none was. -/
theorem getIdleMetrics_total_and_zero_datapoints (ids : List String)
    (pages : List (List MetricDataResult)) (hnd : ids.Nodup) (i : Nat)
    (hi : i < ids.length) (kind : MetricKind)
    (hz : ∀ r ∈ resultsFor kind i pages.flatten, finiteValues r.Values = []) :
    ((getIdleMetricsForInstances ids pages).map Prod.fst = ids) ∧
    metricValue (idleMetricsOfAgg (finalAggMap ids pages (ids.get ⟨i, hi⟩))) kind = none ∧
    (resultsFor kind i pages.flatten ≠ [] →
      metricCount (idleMetricsOfAgg (finalAggMap ids pages (ids.get ⟨i, hi⟩))) kind =
        some 0) ∧
    (resultsFor kind i pages.flatten = [] →
      metricCount (idleMetricsOfAgg (finalAggMap ids pages (ids.get ⟨i, hi⟩))) kind =
        none) ∧
    (ids.get ⟨i, hi⟩, idleMetricsOfAgg (finalAggMap ids pages (ids.get ⟨i, hi⟩))) ∈
      getIdleMetricsForInstances ids pages := by
  have h := (finalAggMap_lastResult ids pages hnd i hi).1 kind
  have hmem := (finalAggMap_lastResult ids pages hnd i hi).2
  rw [metricValue_idleMetricsOfAgg, metricCount_idleMetricsOfAgg]
  refine ⟨by rw [getIdleMetricsForInstances, List.map_map]; exact List.map_id ids, ?_, ?_, ?_, hmem⟩
  · rw [h.1]
    cases hlast : (resultsFor kind i pages.flatten).getLast? with
    | none => rfl
    | some r =>
      have hr : r ∈ resultsFor kind i pages.flatten := List.mem_of_getLast?_eq_some hlast
      simp [hz r hr, kindAggregate_nil]
  · intro hne
    rw [h.2]
    cases hlast : (resultsFor kind i pages.flatten).getLast? with
    | none => exact absurd (List.getLast?_eq_none_iff.mp hlast) hne
    | some r =>
      have hr : r ∈ resultsFor kind i pages.flatten := List.mem_of_getLast?_eq_some hlast
      simp [hz r hr]
  · intro hnil
    rw [h.2, hnil]
    rfl

/-- Witness for the amended C4 theorem at a concrete input: one id, one
result for its cpu query whose only datapoint is non-finite — the entry is
present, the cpu average undefined, and the cpu count zero. -/
theorem getIdleMetrics_total_and_zero_datapoints_witness :
    ((getIdleMetricsForInstances ["i-1"] [[⟨some "cpu0", [RawDatapoint.nonFinite]⟩]]).map
      Prod.fst = ["i-1"]) ∧
    metricValue
      (idleMetricsOfAgg (finalAggMap ["i-1"] [[⟨some "cpu0", [RawDatapoint.nonFinite]⟩]]
        ((["i-1"] : List String).get ⟨0, by norm_num⟩))) MetricKind.cpu = none := by
  have h := getIdleMetrics_total_and_zero_datapoints ["i-1"]
    [[⟨some "cpu0", [RawDatapoint.nonFinite]⟩]] (by decide) 0 (by norm_num)
    MetricKind.cpu ?_
  · exact ⟨h.1, h.2.1⟩
  · intro r hr
    have hparse : parseQueryId "cpu0" = some (MetricKind.cpu, 0) := rfl
    simp [resultsFor, hparse, List.filter] at hr
    subst hr
    rfl

/-- Helper for C9: a malformed or out-of-range result never changes the
aggregation map, whatever the current state. -/
theorem applyMetricDataResult_discard (ids : List String) (r : MetricDataResult)
    (h : parseQueryId (r.Id.getD "") = none ∨
      ∃ k j, parseQueryId (r.Id.getD "") = some (k, j) ∧ ids.length ≤ j) :
    ∀ m : AggMap, applyMetricDataResult ids m r = m := by
  intro m
  rcases h with h | ⟨k, j, h, hj⟩
  · simp [applyMetricDataResult, h]
  · simp [applyMetricDataResult, h, Nat.not_lt.mpr hj]

/-- C9: an upstream result whose identifier does not match the
`^(cpu|ni|no)(\d+)$` pattern, or whose decoded index is out of the input
bounds, is silently discarded — it contributes nothing to any aggregate, so a
page containing it reduces exactly like the page without it, and the
aggregation as a whole still succeeds (the reduction is total). -/
theorem malformed_result_discarded (ids : List String) (r : MetricDataResult)
    (h : parseQueryId (r.Id.getD "") = none ∨
      ∃ k j, parseQueryId (r.Id.getD "") = some (k, j) ∧ ids.length ≤ j) :
    (∀ m : AggMap, applyMetricDataResult ids m r = m) ∧
    (∀ (m : AggMap) (pre post : List MetricDataResult),
      processPage ids m (pre ++ r :: post) = processPage ids m (pre ++ post)) := by
  refine ⟨applyMetricDataResult_discard ids r h, ?_⟩
  intro m pre post
  rw [processPage, processPage, List.foldl_append, List.foldl_append, List.foldl_cons,
    applyMetricDataResult_discard ids r h]

/-- Witness for C9 at a concrete input: a result with identifier "bogus" is
discarded from the page it sits in. -/
theorem malformed_result_discarded_witness :
    parseQueryId "bogus" = none ∧
    processPage ["i-1"] emptyAggMap [⟨some "bogus", [RawDatapoint.value 5]⟩] =
      processPage ["i-1"] emptyAggMap [] := by
  refine ⟨rfl, ?_⟩
  have h := (malformed_result_discarded ["i-1"] ⟨some "bogus", [RawDatapoint.value 5]⟩
    (Or.inl rfl)).2 emptyAggMap [] []
  simpa using h

/-- Helper for C10: the overwrite of one kind's fields is always internally
consistent. -/
theorem kindAggregate_consistent (kind : MetricKind) (vs : List ℚ) :
    ValueCountConsistent (kindAggregate kind vs) (some vs.length) := by
  constructor
  · intro v hv
    refine ⟨vs.length, rfl, ?_⟩
    by_contra hlen
    have h0 : vs.length = 0 := by omega
    rw [show vs = [] from List.length_eq_zero.mp h0, kindAggregate_nil] at hv
    exact Option.noConfusion hv
  · intro hc
    have h0 : vs.length = 0 := by simpa using hc
    rw [show vs = [] from List.length_eq_zero.mp h0, kindAggregate_nil]

/-- Helper for C10: one reduction step preserves value/count consistency of
every entry of the aggregation map. -/
theorem applyMetricDataResult_preserves (ids : List String) (r : MetricDataResult)
    (m : AggMap)
    (hm : ∀ id kind, ValueCountConsistent (aggValue (m id) kind) (aggCount (m id) kind)) :
    ∀ id kind, ValueCountConsistent (aggValue (applyMetricDataResult ids m r id) kind)
      (aggCount (applyMetricDataResult ids m r id) kind) := by
  intro id kind
  rcases hp : parseQueryId (r.Id.getD "") with _ | ⟨k', j⟩
  · simp only [applyMetricDataResult, hp]
    exact hm id kind
  · by_cases hj : j < ids.length
    · have happ : applyMetricDataResult ids m r id =
          if id = ids.get ⟨j, hj⟩ then
            updateAgg (m (ids.get ⟨j, hj⟩)) k' (finiteValues r.Values)
          else m id := by
        simp [applyMetricDataResult, hp, hj]
      rw [happ]
      by_cases hid : id = ids.get ⟨j, hj⟩
      · rw [if_pos hid]
        by_cases hk : k' = kind
        · subst hk
          rw [aggValue_updateAgg_same, aggCount_updateAgg_same]
          exact kindAggregate_consistent k' (finiteValues r.Values)
        · rw [aggValue_updateAgg_ne _ hk, aggCount_updateAgg_ne _ hk]
          exact hm _ kind
      · rw [if_neg hid]
        exact hm id kind
    · simp only [applyMetricDataResult, hp]
      rw [dif_neg hj]
      exact hm id kind

/-- Helper for C10: the consistency invariant carries over a whole stream. -/
theorem processStream_preserves (ids : List String) :
    ∀ (results : List MetricDataResult) (m : AggMap),
      (∀ id kind, ValueCountConsistent (aggValue (m id) kind) (aggCount (m id) kind)) →
      ∀ id kind, ValueCountConsistent (aggValue (processStream ids m results id) kind)
        (aggCount (processStream ids m results id) kind) := by
  intro results
  induction results with
  | nil => intro m hm; exact hm
  | cons r rest ih =>
    intro m hm
    have hstep := applyMetricDataResult_preserves ids r m hm
    have : processStream ids m (r :: rest) =
        processStream ids (applyMetricDataResult ids m r) rest := by
      simp [processStream]
    rw [this]
    exact ih _ hstep

/-- C10: in every record of the mapping returned by
`getIdleMetricsForInstances`, for each metric kind, the value field is
defined only if the corresponding datapoint count is defined and at least 1,
and a recorded count of 0 forces an undefined value field. -/
theorem metrics_value_count_consistent (ids : List String)
    (pages : List (List MetricDataResult)) :
    ∀ entry ∈ getIdleMetricsForInstances ids pages, ∀ kind,
      ValueCountConsistent (metricValue entry.2 kind) (metricCount entry.2 kind) := by
  intro entry hentry kind
  rw [getIdleMetricsForInstances] at hentry
  obtain ⟨id, _, rfl⟩ := List.mem_map.mp hentry
  rw [metricValue_idleMetricsOfAgg, metricCount_idleMetricsOfAgg]
  have hempty : ∀ id' kind', ValueCountConsistent (aggValue (emptyAggMap id') kind')
      (aggCount (emptyAggMap id') kind') := by
    intro id' kind'
    rw [aggValue_emptyAggMap, aggCount_emptyAggMap]
    exact ⟨fun v hv => Option.noConfusion hv, fun hc => Option.noConfusion hc⟩
  have h := processStream_preserves ids pages.flatten emptyAggMap hempty id kind
  rw [finalAggMap, processPages_eq_processStream]
  exact h

/-- Witness for C10 at a concrete input: the unique entry produced for one id
with no upstream results satisfies the value/count consistency for the cpu
kind. -/
theorem metrics_value_count_consistent_witness :
    ValueCountConsistent
      (metricValue (idleMetricsOfAgg (finalAggMap ["i-1"] [] "i-1")) MetricKind.cpu)
      (metricCount (idleMetricsOfAgg (finalAggMap ["i-1"] [] "i-1")) MetricKind.cpu) :=
  metrics_value_count_consistent ["i-1"] []
    ("i-1", idleMetricsOfAgg (finalAggMap ["i-1"] [] "i-1"))
    (by simp [getIdleMetricsForInstances]) MetricKind.cpu

/-! ## Theorems: capped instance listing (C8) -/

theorem ingestInstances_le (maxInstances : Nat) :
    ∀ (raws : List RawInstance) (acc : List ec2InstanceSummary),
      acc.length < maxInstances →
      (ingestInstances maxInstances acc raws).length ≤ maxInstances := by
  intro raws
  induction raws with
  | nil => intro acc h; exact Nat.le_of_lt h
  | cons inst rest ih =>
    intro acc h
    rw [ingestInstances]
    cases hid : inst.InstanceId with
    | none => exact ih acc h
    | some iid =>
      simp only []
      by_cases hfull : maxInstances ≤ (acc ++ [summaryOfRawInstance iid inst]).length
      · rw [if_pos hfull]
        simp only [List.length_append, List.length_cons, List.length_nil]
        omega
      · rw [if_neg hfull]
        exact ih _ (by omega)

theorem ingestReservations_le (maxInstances : Nat) :
    ∀ (rs : List (List RawInstance)) (acc : List ec2InstanceSummary),
      acc.length < maxInstances →
      (ingestReservations maxInstances acc rs).length ≤ maxInstances := by
  intro rs
  induction rs with
  | nil => intro acc h; exact Nat.le_of_lt h
  | cons r rest ih =>
    intro acc h
    rw [ingestReservations]
    have hr := ingestInstances_le maxInstances r acc h
    by_cases hfull : maxInstances ≤ (ingestInstances maxInstances acc r).length
    · rw [if_pos hfull]
      exact hr
    · rw [if_neg hfull]
      exact ih _ (by omega)

theorem listEc2CappedGo_spec (maxInstances : Nat) :
    ∀ (responses : List DescribeResponse) (acc : List ec2InstanceSummary),
      acc.length ≤ maxInstances →
      (listEc2CappedGo maxInstances acc responses).1.length ≤ maxInstances ∧
      (∀ p ∈ (listEc2CappedGo maxInstances acc responses).2,
        p.1 < maxInstances ∧ p.2 = min 1000 (max 5 (maxInstances - p.1))) ∧
      (listEc2CappedGo maxInstances acc responses).2.length ≤ responses.length ∧
      (∀ k, k + 1 < (listEc2CappedGo maxInstances acc responses).2.length →
        ∃ hk : k < responses.length,
          ((responses.get ⟨k, hk⟩).NextToken).isSome = true) := by
  intro responses
  induction responses with
  | nil =>
    intro acc h
    refine ⟨h, by simp [listEc2CappedGo], by simp [listEc2CappedGo], ?_⟩
    intro k hk
    simp [listEc2CappedGo] at hk
  | cons resp rest ih =>
    intro acc h
    by_cases hlt : acc.length < maxInstances
    · have hacc' := ingestReservations_le maxInstances resp.Reservations acc hlt
      cases htok : resp.NextToken with
      | none =>
        have hgo : listEc2CappedGo maxInstances acc (resp :: rest) =
            (ingestReservations maxInstances acc resp.Reservations,
              [(acc.length, min 1000 (max 5 (maxInstances - acc.length)))]) := by
          rw [listEc2CappedGo, if_pos hlt, htok]
        rw [hgo]
        refine ⟨hacc', ?_, by simp, ?_⟩
        · intro p hp
          rw [List.mem_singleton] at hp
          subst hp
          exact ⟨hlt, rfl⟩
        · intro k hk
          simp at hk
      | some tok =>
        have hgo : listEc2CappedGo maxInstances acc (resp :: rest) =
            ((listEc2CappedGo maxInstances
                (ingestReservations maxInstances acc resp.Reservations) rest).1,
              (acc.length, min 1000 (max 5 (maxInstances - acc.length))) ::
                (listEc2CappedGo maxInstances
                  (ingestReservations maxInstances acc resp.Reservations) rest).2) := by
          rw [listEc2CappedGo, if_pos hlt, htok]
        obtain ⟨ih1, ih2, ih3, ih4⟩ := ih _ hacc'
        rw [hgo]
        refine ⟨ih1, ?_, by simpa using ih3, ?_⟩
        · intro p hp
          rcases List.mem_cons.mp hp with hp | hp
          · subst hp
            exact ⟨hlt, rfl⟩
          · exact ih2 p hp
        · intro k hk
          match k with
          | 0 => exact ⟨Nat.succ_pos _, by simp [htok]⟩
          | k + 1 =>
            have hk' : k + 1 < (listEc2CappedGo maxInstances
                (ingestReservations maxInstances acc resp.Reservations) rest).2.length := by
              simpa using hk
            obtain ⟨hkr, hsome⟩ := ih4 k hk'
            exact ⟨Nat.succ_lt_succ hkr, hsome⟩
    · have hgo : listEc2CappedGo maxInstances acc (resp :: rest) = (acc, []) := by
        rw [listEc2CappedGo, if_neg hlt]
      rw [hgo]
      refine ⟨h, by simp, by simp, ?_⟩
      intro k hk
      simp at hk

/-- C8: for a positive cap, the listing requests each page with size
`min(1000, max(5, maxInstances - collectedSoFar))` and only while fewer than
`maxInstances` items are collected; it stops at the first tokenless response
(every non-final request was preceded by a continuation token); and it returns
at most `maxInstances` summaries, silently truncating any excess from the
final page (the reduction is total — no error path). -/
theorem listEc2InstancesCapped_spec (maxInstances : Nat)
    (responses : List DescribeResponse) (_hpos : 0 < maxInstances) :
    (listEc2InstancesCapped maxInstances responses).1.length ≤ maxInstances ∧
    (∀ p ∈ (listEc2InstancesCapped maxInstances responses).2,
      p.1 < maxInstances ∧ p.2 = min 1000 (max 5 (maxInstances - p.1))) ∧
    (listEc2InstancesCapped maxInstances responses).2.length ≤ responses.length ∧
    (∀ k, k + 1 < (listEc2InstancesCapped maxInstances responses).2.length →
      ∃ hk : k < responses.length,
        ((responses.get ⟨k, hk⟩).NextToken).isSome = true) :=
  listEc2CappedGo_spec maxInstances responses [] (Nat.zero_le _)

/-- Witness for C8 at a concrete input: a cap of 2 against a single page
carrying three instances — the page was requested with size 5 (the lower
bound), and the excess item is dropped, leaving exactly 2 summaries. -/
theorem listEc2InstancesCapped_spec_witness :
    (0 < 2) ∧
    (listEc2InstancesCapped 2
      [⟨[[⟨some "i-1", [], none, none, none, none⟩,
          ⟨some "i-2", [], none, none, none, none⟩,
          ⟨some "i-3", [], none, none, none, none⟩]], none⟩]).1.length ≤ 2 ∧
    (listEc2InstancesCapped 2
      [⟨[[⟨some "i-1", [], none, none, none, none⟩,
          ⟨some "i-2", [], none, none, none, none⟩,
          ⟨some "i-3", [], none, none, none, none⟩]], none⟩]).1.length = 2 ∧
    (listEc2InstancesCapped 2
      [⟨[[⟨some "i-1", [], none, none, none, none⟩,
          ⟨some "i-2", [], none, none, none, none⟩,
          ⟨some "i-3", [], none, none, none, none⟩]], none⟩]).2 = [(0, 5)] := by
  refine ⟨by norm_num,
    (listEc2InstancesCapped_spec 2 _ (by norm_num)).1, rfl, rfl⟩

/-! ## Theorems: ranking comparator (C5) -/

theorem Ordering_then_eq_eq {o p : Ordering} : o.then p = .eq ↔ o = .eq ∧ p = .eq := by
  cases o <;> simp [Ordering.then]

theorem Ordering_then_eq_lt {o p : Ordering} :
    o.then p = .lt ↔ o = .lt ∨ (o = .eq ∧ p = .lt) := by
  cases o <;> simp [Ordering.then]

theorem cmpNat_eq_iff (x y : Nat) : cmpNat x y = .eq ↔ x = y := by
  unfold cmpNat
  split_ifs <;> simp <;> omega

theorem cmpNat_lt_iff (x y : Nat) : cmpNat x y = .lt ↔ x < y := by
  unfold cmpNat
  split_ifs <;> simp <;> omega

theorem cmpQ_eq_iff (x y : ℚ) : cmpQ x y = .eq ↔ x = y := by
  unfold cmpQ
  split_ifs <;> simp <;> linarith

theorem cmpQ_lt_iff (x y : ℚ) : cmpQ x y = .lt ↔ x < y := by
  unfold cmpQ
  split_ifs <;> simp <;> linarith

theorem cmpCpuAvg_eq_iff (x y : Option ℚ) : cmpCpuAvg x y = .eq ↔ x = y := by
  cases x <;> cases y <;> simp [cmpCpuAvg, cmpQ_eq_iff]

theorem cmpCpuAvg_lt_iff (x y : Option ℚ) : cmpCpuAvg x y = .lt ↔ CpuKeyLT x y := by
  cases x <;> cases y <;> simp [cmpCpuAvg, CpuKeyLT, cmpQ_lt_iff]

theorem cmpNat_lawful : LawfulCmp cmpNat := by
  refine ⟨?_, ?_, ?_⟩
  · intro x y
    unfold cmpNat
    split_ifs <;> first | rfl | omega
  · intro x y z h
    rw [(cmpNat_eq_iff x y).mp h]
  · intro x y z h1 h2
    rw [cmpNat_lt_iff] at *
    omega

theorem cmpQ_lawful : LawfulCmp cmpQ := by
  refine ⟨?_, ?_, ?_⟩
  · intro x y
    unfold cmpQ
    split_ifs <;> first | rfl | linarith
  · intro x y z h
    rw [(cmpQ_eq_iff x y).mp h]
  · intro x y z h1 h2
    rw [cmpQ_lt_iff] at *
    linarith

theorem cmpCpuAvg_lawful : LawfulCmp cmpCpuAvg := by
  refine ⟨?_, ?_, ?_⟩
  · intro x y
    cases x <;> cases y
    · rfl
    · rfl
    · rfl
    · exact cmpQ_lawful.swap_eq _ _
  · intro x y z h
    rw [(cmpCpuAvg_eq_iff x y).mp h]
  · intro x y z h1 h2
    rw [cmpCpuAvg_lt_iff] at *
    cases x <;> cases y <;> cases z <;>
      (simp only [CpuKeyLT] at *
       try linarith)

theorem LawfulCmp_eq_right {α : Type} {c : α → α → Ordering} (h : LawfulCmp c)
    {y z : α} (he : c y z = .eq) (x : α) : c x y = c x z := by
  have e1 : c x y = (c y x).swap := by rw [h.swap_eq x y, Ordering.swap_swap]
  have e2 : c x z = (c z x).swap := by rw [h.swap_eq x z, Ordering.swap_swap]
  rw [e1, e2, h.eq_left y z x he]

theorem cmpOn_lawful {α β : Type} (f : α → β) {c : β → β → Ordering} (h : LawfulCmp c) :
    LawfulCmp (cmpOn f c) :=
  ⟨fun x y => h.swap_eq (f x) (f y),
   fun x y z hxy => h.eq_left (f x) (f y) (f z) hxy,
   fun x y z h1 h2 => h.lt_trans (f x) (f y) (f z) h1 h2⟩

theorem cmpThen_lawful {α : Type} {c₁ c₂ : α → α → Ordering}
    (h₁ : LawfulCmp c₁) (h₂ : LawfulCmp c₂) : LawfulCmp (cmpThen c₁ c₂) := by
  refine ⟨?_, ?_, ?_⟩
  · intro x y
    unfold cmpThen
    rw [h₁.swap_eq, h₂.swap_eq]
    cases c₁ x y <;> cases c₂ x y <;> rfl
  · intro x y z h
    unfold cmpThen at *
    obtain ⟨ha, hb⟩ := Ordering_then_eq_eq.mp h
    rw [h₁.eq_left x y z ha, h₂.eq_left x y z hb]
  · intro x y z hxy hyz
    unfold cmpThen at *
    rw [Ordering_then_eq_lt] at *
    rcases hxy with hxy | ⟨hxy, hxy2⟩ <;> rcases hyz with hyz | ⟨hyz, hyz2⟩
    · exact Or.inl (h₁.lt_trans x y z hxy hyz)
    · exact Or.inl ((LawfulCmp_eq_right h₁ hyz x).symm ▸ hxy)
    · exact Or.inl ((h₁.eq_left x y z hxy) ▸ hyz)
    · exact Or.inr ⟨(h₁.eq_left x y z hxy) ▸ hyz, h₂.lt_trans x y z hxy2 hyz2⟩

theorem compareCandidates_lawful : LawfulCmp compareCandidates :=
  cmpThen_lawful (cmpOn_lawful idleRank cmpNat_lawful)
    (cmpThen_lawful (cmpOn_lawful (fun c => confidenceRank c.confidence) cmpNat_lawful)
      (cmpThen_lawful (cmpOn_lawful (fun c => c.metrics.cpuAvg) cmpCpuAvg_lawful)
        (cmpOn_lawful candidateNetTotal cmpQ_lawful)))

theorem idleRank_eq_iff (a b : idleCandidate) : idleRank a = idleRank b ↔ a.idle = b.idle := by
  unfold idleRank
  cases ha : a.idle <;> cases hb : b.idle <;> simp

theorem idleRank_lt_iff (a b : idleCandidate) :
    idleRank a < idleRank b ↔ (a.idle = true ∧ b.idle = false) := by
  unfold idleRank
  cases ha : a.idle <;> cases hb : b.idle <;> simp

theorem confidenceRank_eq_iff (x y : Confidence) :
    confidenceRank x = confidenceRank y ↔ x = y := by
  cases x <;> cases y <;> simp [confidenceRank]

theorem compareCandidates_eq_iff (a b : idleCandidate) :
    compareCandidates a b = .eq ↔ FourKeyEq a b := by
  show cmpThen _ _ a b = .eq ↔ _
  unfold cmpThen
  rw [Ordering_then_eq_eq, Ordering_then_eq_eq, Ordering_then_eq_eq]
  unfold cmpOn
  rw [cmpNat_eq_iff, cmpNat_eq_iff, cmpCpuAvg_eq_iff, cmpQ_eq_iff, idleRank_eq_iff,
    confidenceRank_eq_iff]
  unfold FourKeyEq
  tauto

theorem candidateLE_eq_true_iff (a b : idleCandidate) :
    candidateLE a b = true ↔ compareCandidates a b ≠ .gt := by
  unfold candidateLE
  cases compareCandidates a b <;> decide

theorem candidateLE_fourKeyLE (a b : idleCandidate) (h : candidateLE a b = true) :
    FourKeyLE a b := by
  have hne : compareCandidates a b ≠ .gt := (candidateLE_eq_true_iff a b).mp h
  rcases hcmp : compareCandidates a b with _ | _ | _
  · -- strictly earlier in the lexicographic order
    have hlt := hcmp
    rw [show compareCandidates = cmpThen (cmpOn idleRank cmpNat)
        (cmpThen (cmpOn (fun c => confidenceRank c.confidence) cmpNat)
          (cmpThen (cmpOn (fun c => c.metrics.cpuAvg) cmpCpuAvg)
            (cmpOn candidateNetTotal cmpQ))) from rfl] at hlt
    unfold cmpThen cmpOn at hlt
    rw [Ordering_then_eq_lt] at hlt
    rcases hlt with h1 | ⟨h1, hlt⟩
    · exact Or.inl ((idleRank_lt_iff a b).mp ((cmpNat_lt_iff _ _).mp h1))
    · rw [Ordering_then_eq_lt] at hlt
      refine Or.inr ⟨(idleRank_eq_iff a b).mp ((cmpNat_eq_iff _ _).mp h1), ?_⟩
      rcases hlt with h2 | ⟨h2, hlt⟩
      · exact Or.inl ((cmpNat_lt_iff _ _).mp h2)
      · refine Or.inr ⟨(confidenceRank_eq_iff _ _).mp ((cmpNat_eq_iff _ _).mp h2), ?_⟩
        rw [Ordering_then_eq_lt] at hlt
        rcases hlt with h3 | ⟨h3, h4⟩
        · exact Or.inl ((cmpCpuAvg_lt_iff _ _).mp h3)
        · exact Or.inr ⟨(cmpCpuAvg_eq_iff _ _).mp h3,
            le_of_lt ((cmpQ_lt_iff _ _).mp h4)⟩
  · -- all four keys equal
    have hEq := (compareCandidates_eq_iff a b).mp hcmp
    obtain ⟨h1, h2, h3, h4⟩ := hEq
    exact Or.inr ⟨h1, Or.inr ⟨h2, Or.inr ⟨h3, le_of_eq h4⟩⟩⟩
  · exact absurd hcmp hne

theorem fourKeyEq_candidateLE (a b : idleCandidate) (h : FourKeyEq a b) :
    candidateLE a b = true := by
  have hEq := (compareCandidates_eq_iff a b).mpr h
  unfold candidateLE
  rw [hEq]
  rfl

theorem candidateLE_total (a b : idleCandidate) :
    (candidateLE a b || candidateLE b a) = true := by
  rcases hcmp : compareCandidates a b with _ | _ | _
  · have hle : candidateLE a b = true := by unfold candidateLE; rw [hcmp]; rfl
    rw [hle, Bool.true_or]
  · have hle : candidateLE a b = true := by unfold candidateLE; rw [hcmp]; rfl
    rw [hle, Bool.true_or]
  · have hle : candidateLE b a = true := by
      rw [candidateLE_eq_true_iff, compareCandidates_lawful.swap_eq a b, hcmp]
      decide
    rw [hle, Bool.or_true]

theorem candidateLE_trans (a b c : idleCandidate)
    (h1 : candidateLE a b = true) (h2 : candidateLE b c = true) :
    candidateLE a c = true := by
  have h1' : compareCandidates a b ≠ .gt := (candidateLE_eq_true_iff a b).mp h1
  have h2' : compareCandidates b c ≠ .gt := (candidateLE_eq_true_iff b c).mp h2
  suffices hne : compareCandidates a c ≠ .gt from (candidateLE_eq_true_iff a c).mpr hne
  rcases hab : compareCandidates a b with _ | _ | _
  · rcases hbc : compareCandidates b c with _ | _ | _
    · rw [compareCandidates_lawful.lt_trans a b c hab hbc]
      simp
    · rw [← LawfulCmp_eq_right compareCandidates_lawful hbc a, hab]
      simp
    · exact absurd hbc h2'
  · rw [compareCandidates_lawful.eq_left a b c hab]
    exact h2'
  · exact absurd hab h1'

/-- C5: ranking is a permutation of its input of the same length, pairwise
ordered by the four-key comparator of the claim (idle before non-idle, then
confidence HIGH before MEDIUM before LOW, then utilization average ascending
with undefined as positive infinity, then combined network total ascending
with absent fields as 0), and any two candidates equal on all four keys keep
their relative input order. -/
theorem detectIdle_rank_spec (cs : List idleCandidate) :
    (rankCandidates cs).Perm cs ∧
    (rankCandidates cs).length = cs.length ∧
    (rankCandidates cs).Pairwise FourKeyLE ∧
    (∀ a b, [a, b].Sublist cs → FourKeyEq a b → [a, b].Sublist (rankCandidates cs)) := by
  refine ⟨List.mergeSort_perm cs candidateLE, List.length_mergeSort cs, ?_, ?_⟩
  · have hs := @List.sorted_mergeSort idleCandidate candidateLE
      (fun a b c => candidateLE_trans a b c) (fun a b => candidateLE_total a b) cs
    exact hs.imp fun {a b} hab => candidateLE_fourKeyLE a b hab
  · intro a b hsub heq
    exact List.pair_sublist_mergeSort (fun a b c => candidateLE_trans a b c)
      (fun a b => candidateLE_total a b) (fourKeyEq_candidateLE a b heq) hsub

/-! ## Concrete instantiations of the classifier and ranking theorems -/

/-- Witness for C1 at a concrete input: an untagged instance with
`cpuAvg = 1`, totals `100 + 200` bytes and 30 datapoints per kind, against the
documented default thresholds, is classified idle. -/
theorem classifyIdle_idle_iff_witness :
    (classifyIdle { instanceId := "i-1" }
      { cpuAvg := some 1, netInBytesTotal := some 100, netOutBytesTotal := some 200,
        dataPointsCpu := some 30, dataPointsNetIn := some 30, dataPointsNetOut := some 30 }
      2 52428800 24 ["DoNotStop", "Critical"]).idle = true := by
  apply (classifyIdle_idle_iff _ _ _ _ _ _).mpr
  refine ⟨by simp [TagExcluded, tagsRecordOf], by norm_num [SufficientCoverage],
    ⟨1, rfl, by norm_num⟩, by norm_num [NetOk]⟩

/-- Witness for C2 at a concrete input: the same metrics but a `Critical` tag
— confidence is forced to LOW and the verdict to non-idle even though the
metrics alone satisfy the HIGH conditions. -/
theorem classifyIdle_confidence_policy_witness :
    (classifyIdle { instanceId := "i-1", tags := some [("Critical", "true")] }
      { cpuAvg := some 1, netInBytesTotal := some 100, netOutBytesTotal := some 200,
        dataPointsCpu := some 30, dataPointsNetIn := some 30, dataPointsNetOut := some 30 }
      2 52428800 24 ["DoNotStop", "Critical"]).confidence = Confidence.LOW ∧
    (classifyIdle { instanceId := "i-1", tags := some [("Critical", "true")] }
      { cpuAvg := some 1, netInBytesTotal := some 100, netOutBytesTotal := some 200,
        dataPointsCpu := some 30, dataPointsNetIn := some 30, dataPointsNetOut := some 30 }
      2 52428800 24 ["DoNotStop", "Critical"]).idle = false := by
  apply (classifyIdle_confidence_policy _ _ _ _ _ _).2.2.2.2.2
  · exact ⟨"Critical", by simp, ("Critical", "true"), by simp [tagsRecordOf], rfl⟩
  · exact by norm_num [SufficientCoverage]
  · exact ⟨1, rfl, by norm_num⟩
  · exact by norm_num [NetOk]

/-- Witness for C5 at a concrete input: ranking a singleton list yields a
permutation of it. -/
theorem detectIdle_rank_spec_witness :
    (rankCandidates
      [⟨{ instanceId := "i-1" },
        { cpuAvg := none, netInBytesTotal := none, netOutBytesTotal := none,
          dataPointsCpu := none, dataPointsNetIn := none, dataPointsNetOut := none },
        true, Confidence.HIGH, []⟩]).Perm
      [⟨{ instanceId := "i-1" },
        { cpuAvg := none, netInBytesTotal := none, netOutBytesTotal := none,
          dataPointsCpu := none, dataPointsNetIn := none, dataPointsNetOut := none },
        true, Confidence.HIGH, []⟩] :=
  (detectIdle_rank_spec _).1

/-- Witness for C7 at a concrete input: the reason list of a classified
instance is non-empty. -/
theorem classifyIdle_reason_spec_witness :
    (classifyIdle { instanceId := "i-1" }
      { cpuAvg := none, netInBytesTotal := none, netOutBytesTotal := none,
        dataPointsCpu := none, dataPointsNetIn := none, dataPointsNetOut := none }
      2 52428800 24 ["DoNotStop", "Critical"]).reason ≠ [] :=
  (classifyIdle_reason_spec _ _ _ _ _ _).2.1

end Daemo
